import Mathlib

/-!
Verification of the archi-scraper extraction-and-synthesis engine.

This file gives a shallow embedding, in Lean 4, of the core functions of
`src/scripts/html_to_archimate_xml.py` and `src/scripts/ArchiScraperApp.py`:
coordinate parsing, relationship-type normalization, per-view extraction,
cross-view merge/dedup, folder reachability ("reference resolver"),
organizations-tree emission, root-folder selection, and diagram z-order
sorting.  Python dicts are modelled as association lists with
insert-or-overwrite-in-place semantics (`dictInsert`), Python strings as
`String`/`List Char`, Python ints as `Int`, and the mutable `visited` set of
the recursive reachability test as explicitly threaded state with a fuel
parameter standing for the Python call stack.
-/

/-! ## Basic string utilities mirroring the Python built-ins used -/

/-- Python `str.strip()` on a character list: drop leading and trailing
whitespace. -/
def pyStrip (cs : List Char) : List Char :=
  ((cs.dropWhile Char.isWhitespace).reverse.dropWhile Char.isWhitespace).reverse

/-- Python `s.split(',')`: split at every comma, keeping empty pieces. -/
def splitComma : List Char → List (List Char)
  | [] => [[]]
  | c :: rest =>
    if c = ',' then [] :: splitComma rest
    else
      match splitComma rest with
      | [] => [[c]]
      | g :: gs => (c :: g) :: gs

/-- Decimal value of a digit list. -/
def digitsToNat (ds : List Char) : Nat :=
  ds.foldl (fun a c => a * 10 + (c.toNat - 48)) 0

/-- Python `int(s.strip())`, returning `none` where Python raises
`ValueError`: optional sign followed by one or more ASCII digits. -/
def pyInt (cs : List Char) : Option Int :=
  match pyStrip cs with
  | [] => none
  | '-' :: ds =>
    if ds ≠ [] ∧ ds.all Char.isDigit then some (-(digitsToNat ds : Int)) else none
  | '+' :: ds =>
    if ds ≠ [] ∧ ds.all Char.isDigit then some ((digitsToNat ds : Int)) else none
  | ds =>
    if ds.all Char.isDigit then some ((digitsToNat ds : Int)) else none

/-- Worker for `replaceAll`, structurally recursive on a fuel that the
caller sets to the string length (each step consumes at least one
character, so the fuel never runs out). -/
def replaceAllAux (pat rep : List Char) : Nat → List Char → List Char
  | 0, s => s
  | _ + 1, [] => []
  | fuel + 1, c :: rest =>
    if pat.isPrefixOf (c :: rest) ∧ pat ≠ [] then
      rep ++ replaceAllAux pat rep fuel (List.drop (pat.length - 1) rest)
    else
      c :: replaceAllAux pat rep fuel rest

/-- Python `s.replace(pat, rep)`: replace every (left-to-right,
non-overlapping) occurrence of `pat` by `rep`; empty pattern is a no-op. -/
def replaceAll (pat rep s : List Char) : List Char :=
  replaceAllAux pat rep s.length s

/-! ## Coordinate parsing (`extract_coordinates`, Step B of the extractor) -/

/-- The record stored for one rect area by `extract_coordinates`
(html_to_archimate_xml.py lines 256-263): corner `(x1, y1)`, width
`x2 - x1`, height `y2 - y1`, plus the raw second corner. -/
structure CoordBox where
  x : Int
  y : Int
  w : Int
  h : Int
  x2 : Int
  y2 : Int
deriving DecidableEq

/-- The numeric part of one `<area>`: Python
`parts = [int(x.strip()) for x in coords_str.split(',')]` followed by
`if len(parts) >= 4` and the corner-to-box conversion.  A `ValueError`
on any piece (modelled by `pyInt = none`) skips the whole area. -/
def parse_area_coords (coords_str : String) : Option CoordBox :=
  match (splitComma coords_str.data).mapM pyInt with
  | none => none
  | some parts =>
    match parts with
    | x1 :: y1 :: x2 :: y2 :: _ =>
      some { x := x1, y := y1, w := x2 - x1, h := y2 - y1, x2 := x2, y2 := y2 }
    | _ => none

/-! ## Relationship type normalization (`fix_relationship_type`) -/

/-- Model of `fix_relationship_type` (html_to_archimate_xml.py lines 52-59):
strip a trailing `"Relationship"` (12 characters, Python `[:-12]`). -/
def fix_relationship_type (rel_type : String) : String :=
  if ("Relationship".data).isSuffixOf rel_type.data then
    String.mk (rel_type.data.take (rel_type.data.length - 12))
  else rel_type

/-- The class-name prefix carrying the type tag convention. -/
def i18nPrefix : List Char := "i18n-elementtype-".data

/-- The relationship-type extraction loop of `extract_relationships`
(html_to_archimate_xml.py lines 304-311): start from `"Association"`,
take the first class with the `i18n-elementtype-` prefix, remove the
prefix (Python `.replace(prefix, '')`) and normalize. -/
def relTypeFromClasses (classes : List String) : String :=
  match classes.find? (fun cls => i18nPrefix.isPrefixOf cls.data) with
  | some cls => fix_relationship_type (String.mk (replaceAll i18nPrefix [] cls.data))
  | none => "Association"

/-! ## Theorems for coordinate parsing and type normalization -/

/-- C5: a rect region given as corner points `(x1,y1)-(x2,y2)` is stored as
the bounding box `(x = x1, y = y1, width = x2 - x1, height = y2 - y1)`;
in particular the region string `"10,20,160,75"` parses to
`x = 10, y = 20, width = 150, height = 55`. -/
theorem c5_rect_region_to_bbox :
    (∀ (s : String) (x1 y1 x2 y2 : Int) (rest : List Int),
      (splitComma s.data).mapM pyInt = some (x1 :: y1 :: x2 :: y2 :: rest) →
      parse_area_coords s =
        some { x := x1, y := y1, w := x2 - x1, h := y2 - y1, x2 := x2, y2 := y2 }) ∧
    parse_area_coords "10,20,160,75" =
      some { x := 10, y := 20, w := 150, h := 55, x2 := 160, y2 := 75 } := by
  constructor
  · intro s x1 y1 x2 y2 rest h
    unfold parse_area_coords
    rw [h]
  · decide

/-- Witness for C5: the scenario input evaluates as the theorem states. -/
theorem c5_rect_region_to_bbox_witness :
    parse_area_coords "10,20,160,75" =
      some { x := 10, y := 20, w := 150, h := 55, x2 := 160, y2 := 75 } :=
  c5_rect_region_to_bbox.1 "10,20,160,75" 10 20 160 75 [] (by decide)

/-- C6: a relationship type tag ending in `"Relationship"` has that suffix
stripped; absent a recognizable `i18n-elementtype-` tag the extracted type
defaults to `"Association"`; `"AggregationRelationship"` yields
`"Aggregation"`. -/
theorem c6_relationship_type_normalization :
    (∀ (classes : List String) (cls : String),
      classes.find? (fun c => i18nPrefix.isPrefixOf c.data) = some cls →
      ∀ raw : List Char, raw = replaceAll i18nPrefix [] cls.data →
      ("Relationship".data).isSuffixOf raw = true →
      relTypeFromClasses classes = String.mk (raw.take (raw.length - 12))) ∧
    (∀ classes : List String,
      classes.find? (fun c => i18nPrefix.isPrefixOf c.data) = none →
      relTypeFromClasses classes = "Association") ∧
    relTypeFromClasses ["i18n-elementtype-AggregationRelationship"] = "Aggregation" := by
  refine ⟨?_, ?_, by decide⟩
  · intro classes cls hfind raw hraw hsuf
    unfold relTypeFromClasses
    rw [hfind]
    unfold fix_relationship_type
    subst hraw
    simp only [hsuf, if_pos]
  · intro classes hnone
    unfold relTypeFromClasses
    rw [hnone]

/-- Witness for C6: the normalization rule applied at the concrete class
list of the spec scenario yields `"Aggregation"`. -/
theorem c6_relationship_type_normalization_witness :
    relTypeFromClasses ["i18n-elementtype-AggregationRelationship"] = "Aggregation" := by
  have h := c6_relationship_type_normalization.1
    ["i18n-elementtype-AggregationRelationship"]
    "i18n-elementtype-AggregationRelationship" (by decide)
    (replaceAll i18nPrefix [] "i18n-elementtype-AggregationRelationship".data)
    rfl (by decide)
  rw [h]
  decide

/-! ## Data model: records produced by the extractors -/

/-- One entry of the per-view elements dict:
`{'id': ..., 'name': ..., 'type': ...}`. -/
structure ElemRec where
  id : String
  name : String
  etype : String
deriving DecidableEq

/-- One extracted relationship row:
`{'id', 'type', 'source', 'target', 'name'}`. -/
structure RelRec where
  id : String
  rtype : String
  source : String
  target : String
  name : String
deriving DecidableEq

/-- One `<area>` tag of the coordinate map, with the four attributes the
extractor reads (`.get` with an absent attribute modelled as `""`). -/
structure Area where
  shape : String
  coords : String
  href : String
  target : String
deriving DecidableEq

/-- Python dict assignment `d[k] = v` on an association list: overwrite in
place if the key is present (keeping its position), else append. -/
def dictInsert {β : Type} (k : String) (v : β) : List (String × β) → List (String × β)
  | [] => [(k, v)]
  | (k', v') :: rest =>
    if k' = k then (k, v) :: rest else (k', v') :: dictInsert k v rest

/-! ## `extract_id_from_href`: the regex `(id-[a-f0-9-]+)\.html` -/

/-- Membership in the regex character class `[a-f0-9-]`. -/
def isHexDashChar (c : Char) : Bool :=
  ('a' ≤ c && c ≤ 'f') || ('0' ≤ c && c ≤ '9') || c = '-'

/-- Try to match `id-[a-f0-9-]+\.html` at the head of the list; the capture
group is `id-` plus the (necessarily maximal, since `.` is outside the
class) run of class characters. -/
def matchIdAt : List Char → Option (List Char)
  | 'i' :: 'd' :: '-' :: rest =>
    let run := rest.takeWhile isHexDashChar
    if run ≠ [] ∧ (".html".data).isPrefixOf (rest.drop run.length) then
      some ('i' :: 'd' :: '-' :: run)
    else none
  | _ => none

/-- Model of `re.search`: try the match at each position, leftmost first. -/
def searchIdToken : List Char → Option (List Char)
  | [] => none
  | c :: rest =>
    match matchIdAt (c :: rest) with
    | some m => some m
    | none => searchIdToken rest

/-- Model of `extract_id_from_href` (html_to_archimate_xml.py lines 210-219):
`None` for a falsy href, else the first `id-<hex>` token followed by
`.html`. -/
def extract_id_from_href (href : String) : Option String :=
  if href = "" then none
  else (searchIdToken href.data).map String.mk

/-! ## `extract_coordinates` (Step B) over the list of areas -/

/-- The contribution of a single `<area>` to the coordinates dict: `none`
when the loop body hits a `continue` (wrong shape, `target == 'view'`,
no id, empty coords string, or a `ValueError` while parsing). -/
def areaEntry (a : Area) : Option (String × CoordBox) :=
  if a.shape ≠ "rect" then none
  else if a.target = "view" then none
  else
    match extract_id_from_href a.href with
    | none => none
    | some elem_id =>
      if a.coords = "" then none
      else
        match parse_area_coords a.coords with
        | none => none
        | some box => some (elem_id, box)

/-- Model of `extract_coordinates` (html_to_archimate_xml.py lines 224-267): fold
the areas in document order into the coordinates dict; a later area with
the same id overwrites the earlier box. -/
def extract_coordinates (areas : List Area) : List (String × CoordBox) :=
  areas.foldl
    (fun d a =>
      match areaEntry a with
      | some kv => dictInsert kv.1 kv.2 d
      | none => d)
    []

/-! ## `extract_elements` (Step A) and `extract_relationships` (Step C) -/

/-- One row of the `#elements` table that survives the shape checks of
`extract_elements` (at least two cells and a name link): the name link's
href and text, and the type link's classes when a type link exists. -/
structure ElemRow where
  nameHref : String
  nameText : String
  typeClasses : Option (List String)

/-- One row of the `#relationships` table that survives the shape checks
of `extract_relationships` (at least four cells, all four links present). -/
structure RelRow where
  relHref : String
  relText : String
  typeClasses : List String
  sourceHref : String
  targetHref : String

/-- The element-type extraction loop: default `"Unknown"`, first class
with the `i18n-elementtype-` prefix wins, prefix removed by `.replace`. -/
def elemTypeFromClasses (classes : List String) : String :=
  match classes.find? (fun cls => i18nPrefix.isPrefixOf cls.data) with
  | some cls => String.mk (replaceAll i18nPrefix [] cls.data)
  | none => "Unknown"

/-- Model of `extract_elements` (html_to_archimate_xml.py lines 163-208): build the
elements dict keyed by extracted id; rows with no id or an empty name
are dropped. -/
def extract_elements (rows : List ElemRow) : List (String × ElemRec) :=
  rows.foldl
    (fun d r =>
      let elem_type :=
        match r.typeClasses with
        | some classes => elemTypeFromClasses classes
        | none => "Unknown"
      match extract_id_from_href r.nameHref with
      | some elem_id =>
        if r.nameText ≠ "" then
          dictInsert elem_id { id := elem_id, name := r.nameText, etype := elem_type } d
        else d
      | none => d)
    []

/-- Model of `extract_relationships` (html_to_archimate_xml.py lines 272-322):
collect rows whose three references all resolve to ids. -/
def extract_relationships (rows : List RelRow) : List RelRec :=
  rows.foldl
    (fun acc r =>
      let rel_type := relTypeFromClasses r.typeClasses
      match extract_id_from_href r.relHref, extract_id_from_href r.sourceHref,
          extract_id_from_href r.targetHref with
      | some rel_id, some source_id, some target_id =>
        acc ++ [{ id := rel_id, rtype := rel_type, source := source_id,
                  target := target_id, name := r.relText }]
      | _, _, _ => acc)
    []

/-! ## The View Extractor (`extract_view_data` / `ViewParser.parse`) -/

/-- A ViewRecord as returned by the extractor. -/
structure ViewRec where
  view_name : String
  view_id : String
  elements : List (String × ElemRec)
  relationships : List RelRec
  coordinates : List (String × CoordBox)
deriving DecidableEq

/-- The relevant shape of one view document as seen by the extractor:
optional `<title>` text, optional `<map name=...>`, the area list, and
the rows of the two tables. -/
structure ViewDoc where
  title : Option String
  mapName : Option String
  areas : List Area
  elemRows : List ElemRow
  relRows : List RelRow

/-- View identity (ArchiScraperApp.py lines 402-411): prefer the map name
with the trailing `"map"` stripped when the name is truthy and carries
that suffix, else the freshly synthesized id supplied by the caller
(modelling `gen_id("view")`). -/
def viewIdOfDoc (doc : ViewDoc) (fresh : String) : String :=
  let vid :=
    match doc.mapName with
    | some nm =>
      if nm ≠ "" ∧ ("map".data).isSuffixOf nm.data then
        String.mk (nm.data.take (nm.data.length - 3))
      else ""
    | none => ""
  if vid = "" then fresh else vid

/-- Model of `ViewParser.parse` (ArchiScraperApp.py lines 393-426): run the three
extraction steps and return `none` exactly when the coordinates dict
came out empty. -/
def extract_view_data (doc : ViewDoc) (fresh : String) : Option ViewRec :=
  let view_name :=
    match doc.title with
    | some t => t
    | none => "Unknown View"
  let view_id := viewIdOfDoc doc fresh
  let elements := extract_elements doc.elemRows
  let coordinates := extract_coordinates doc.areas
  let relationships := extract_relationships doc.relRows
  if coordinates = [] then none
  else
    some { view_name := view_name, view_id := view_id, elements := elements,
           relationships := relationships, coordinates := coordinates }

/-! ## Association-list lemmas for the dict model -/

/-- Left-biased choice on options (Python "first source that has the key"). -/
def myOr {β : Type} (a b : Option β) : Option β :=
  match a with
  | some x => some x
  | none => b

theorem myOr_none {β : Type} (a : Option β) : myOr a none = a := by
  cases a <;> rfl

theorem lookup_cons_key_eq {β : Type} (id k : String) (v : β) (rest : List (String × β))
    (h : id = k) : List.lookup id ((k, v) :: rest) = some v := by
  have hb : (id == k) = true := by simp [h]
  simp [List.lookup, hb]

theorem lookup_cons_key_ne {β : Type} (id k : String) (v : β) (rest : List (String × β))
    (h : ¬ id = k) : List.lookup id ((k, v) :: rest) = List.lookup id rest := by
  have hb : (id == k) = false := by simp [h]
  simp [List.lookup, hb]

theorem lookup_dictInsert {β : Type} (k id : String) (v : β) (d : List (String × β)) :
    List.lookup id (dictInsert k v d) = if id = k then some v else List.lookup id d := by
  induction d with
  | nil =>
    have hd : dictInsert k v ([] : List (String × β)) = [(k, v)] := rfl
    by_cases h : id = k
    · rw [hd, lookup_cons_key_eq id k v [] h]
      simp [h]
    · rw [hd, lookup_cons_key_ne id k v [] h]
      simp [h]
  | cons p rest ih =>
    obtain ⟨k', v'⟩ := p
    by_cases h1 : k' = k
    · subst h1
      by_cases h2 : id = k'
      · simp [dictInsert, lookup_cons_key_eq id k' v rest h2, lookup_cons_key_eq id k' v' rest h2, h2]
      · simp [dictInsert, lookup_cons_key_ne id k' v rest h2, lookup_cons_key_ne id k' v' rest h2, h2]
    · by_cases h2 : id = k'
      · have hik : ¬ id = k := fun hh => h1 (h2 ▸ hh)
        simp [dictInsert, h1, lookup_cons_key_eq id k' v' (dictInsert k v rest) h2,
          lookup_cons_key_eq id k' v' rest h2, hik]
      · simp [dictInsert, h1, lookup_cons_key_ne id k' v' (dictInsert k v rest) h2,
          lookup_cons_key_ne id k' v' rest h2, ih]

theorem lookup_append {β : Type} (id : String) (l1 l2 : List (String × β)) :
    List.lookup id (l1 ++ l2) = myOr (List.lookup id l1) (List.lookup id l2) := by
  induction l1 with
  | nil => simp [myOr]
  | cons p rest ih =>
    obtain ⟨k, v⟩ := p
    by_cases h : id = k
    · simp [lookup_cons_key_eq id k v (rest ++ l2) h, lookup_cons_key_eq id k v rest h, myOr]
    · simp [lookup_cons_key_ne id k v (rest ++ l2) h, lookup_cons_key_ne id k v rest h, ih]

theorem lookup_foldl_dictInsert {β : Type} (l acc : List (String × β)) (id : String) :
    List.lookup id (l.foldl (fun d p => dictInsert p.1 p.2 d) acc)
      = myOr (List.lookup id l.reverse) (List.lookup id acc) := by
  induction l generalizing acc with
  | nil => simp [myOr]
  | cons p rest ih =>
    obtain ⟨k, v⟩ := p
    simp only [List.foldl_cons, List.reverse_cons]
    rw [ih, lookup_append, lookup_dictInsert]
    cases hl : List.lookup id rest.reverse with
    | some w => simp [myOr]
    | none =>
      by_cases h : id = k
      · rw [lookup_cons_key_eq id k v [] h]
        simp [myOr, h]
      · rw [lookup_cons_key_ne id k v [] h]
        simp [myOr, h, List.lookup_nil]

theorem foldl_areaEntry (areas : List Area) (acc : List (String × CoordBox)) :
    areas.foldl
        (fun d a =>
          match areaEntry a with
          | some kv => dictInsert kv.1 kv.2 d
          | none => d)
        acc
      = (areas.filterMap areaEntry).foldl (fun d p => dictInsert p.1 p.2 d) acc := by
  induction areas generalizing acc with
  | nil => simp
  | cons a rest ih =>
    cases h : areaEntry a <;> simp [List.filterMap_cons, h, ih]

/-! ## Theorems for C10 and C8 -/

/-- C10: within one view document, the stored coordinates for an element
identifier are those of the last rect area (in document order) that
resolves to that identifier — later areas overwrite earlier ones.  The
second conjunct shows it on two concrete overlapping areas. -/
theorem c10_last_area_wins :
    (∀ (areas : List Area) (id : String),
      List.lookup id (extract_coordinates areas)
        = List.lookup id (areas.filterMap areaEntry).reverse) ∧
    List.lookup "id-aa"
        (extract_coordinates
          [{ shape := "rect", coords := "0,0,10,10", href := "a/id-aa.html", target := "" },
           { shape := "rect", coords := "5,5,30,25", href := "b/id-aa.html", target := "" }])
      = some { x := 5, y := 5, w := 25, h := 20, x2 := 30, y2 := 25 } := by
  constructor
  · intro areas id
    unfold extract_coordinates
    rw [foldl_areaEntry, lookup_foldl_dictInsert]
    simp [myOr_none]
  · decide

/-- C8: the View Extractor returns a ViewRecord iff at least one
coordinate was parsed from the view document, and the record's coordinate
map is exactly the extracted one; zero coordinates yield `none`. -/
theorem c8_view_requires_coordinates :
    ∀ (doc : ViewDoc) (fresh : String),
      ((extract_view_data doc fresh).isSome = true ↔ extract_coordinates doc.areas ≠ []) ∧
      (∀ r : ViewRec, extract_view_data doc fresh = some r →
        r.coordinates = extract_coordinates doc.areas) := by
  intro doc fresh
  constructor
  · unfold extract_view_data
    by_cases h : extract_coordinates doc.areas = [] <;> simp [h]
  · intro r hr
    unfold extract_view_data at hr
    by_cases h : extract_coordinates doc.areas = []
    · simp [h] at hr
    · simp only [h, if_neg, ite_false, Option.some.injEq] at hr
      rw [← hr]

/-- The demo view document used by the C8 witness: one valid rect area. -/
def viewDocDemo : ViewDoc :=
  { title := some "Demo"
    mapName := some "id-77map"
    areas := [{ shape := "rect", coords := "0,0,10,10", href := "a/id-aa.html", target := "" }]
    elemRows := []
    relRows := [] }

/-- The ViewRecord the extractor produces for `viewDocDemo`. -/
def viewRecDemo : ViewRec :=
  { view_name := "Demo"
    view_id := "id-77"
    elements := []
    relationships := []
    coordinates := [("id-aa", { x := 0, y := 0, w := 10, h := 10, x2 := 10, y2 := 10 })] }

/-- Witness for C8: the demo view has one coordinate, so a ViewRecord is
returned and its coordinate map is the extracted one. -/
theorem c8_view_requires_coordinates_witness :
    extract_view_data viewDocDemo "id-fresh" = some viewRecDemo ∧
    viewRecDemo.coordinates = extract_coordinates viewDocDemo.areas :=
  ⟨by decide,
   (c8_view_requires_coordinates viewDocDemo "id-fresh").2 viewRecDemo (by decide)⟩

/-! ## The caller-facing batch add (C7) -/

/-- The duplicate check of `_on_iframe_src_received_batch`
(ArchiScraperApp.py lines 1258-1268): if any view already in the batch has
the same `view_id`, signal the caller (modelled as `none`, the "Already
Added" message box) and leave the batch alone; otherwise append. -/
def addViewToBatch (batch : List ViewRec) (v : ViewRec) : Option (List ViewRec) :=
  if batch.any (fun w => w.view_id == v.view_id) then none
  else some (batch ++ [v])

/-- C7: adding a ViewRecord whose identifier already occurs in the batch is
rejected with a signal and no state change; a non-duplicate is appended. -/
theorem c7_duplicate_view_rejected :
    ∀ (batch : List ViewRec) (v : ViewRec),
      ((∃ w ∈ batch, w.view_id = v.view_id) → addViewToBatch batch v = none) ∧
      ((∀ w ∈ batch, w.view_id ≠ v.view_id) →
        addViewToBatch batch v = some (batch ++ [v])) := by
  intro batch v
  constructor
  · rintro ⟨w, hw, hid⟩
    have hany : batch.any (fun w => w.view_id == v.view_id) = true := by
      rw [List.any_eq_true]
      exact ⟨w, hw, by simp [hid]⟩
    simp [addViewToBatch, hany]
  · intro hall
    have hany : batch.any (fun w => w.view_id == v.view_id) = false := by
      rw [List.any_eq_false]
      intro w hw
      simp [hall w hw]
    simp [addViewToBatch, hany]

/-- Witness for C7: a concrete duplicate is rejected; the same record added
to an empty batch is appended. -/
theorem c7_duplicate_view_rejected_witness :
    addViewToBatch [viewRecDemo] viewRecDemo = none ∧
    addViewToBatch [] viewRecDemo = some [viewRecDemo] :=
  ⟨(c7_duplicate_view_rejected [viewRecDemo] viewRecDemo).1
      ⟨viewRecDemo, by decide, rfl⟩,
   (c7_duplicate_view_rejected [] viewRecDemo).2 (by decide)⟩

/-! ## The Merge/Dedup Engine (C2) -/

/-- The pseudo-types excluded from the element output. -/
def excludedTypes : List String := ["DiagramModelNote", "DiagramModelReference", "Unknown"]

/-- The per-element keep test of the GUI merge
(ArchiScraperApp.py lines 575-578): the element is in this view's
coordinate dict and its type is not an excluded pseudo-type. -/
def keepElem (v : ViewRec) (p : String × ElemRec) : Bool :=
  (List.lookup p.1 v.coordinates).isSome && decide (¬ p.2.etype ∈ excludedTypes)

/-- One view's contribution to the GUI merge
(ArchiScraperApp.py lines 569-580): elements passing `keepElem` are
inserted when their id is not yet present; later occurrences are ignored
entirely. -/
def mergeAppStep (acc : List (String × ElemRec)) (v : ViewRec) : List (String × ElemRec) :=
  v.elements.foldl
    (fun acc2 p =>
      if keepElem v p then
        if List.lookup p.1 acc2 = none then acc2 ++ [p] else acc2
      else acc2)
    acc

/-- The merged element dict of `ArchiScraperApp.create_merged_xml` over the
ordered batch. -/
def create_merged_elements (views : List ViewRec) : List (String × ElemRec) :=
  views.foldl mergeAppStep []

/-- One view's contribution to the CLI accumulator
(html_to_archimate_xml.py `main`, lines 826-829): every element of the
view's elements table is inserted first-seen by id, with no coordinate or
type condition. -/
def mergeCLIStep (acc : List (String × ElemRec)) (v : ViewRec) : List (String × ElemRec) :=
  v.elements.foldl
    (fun acc2 p =>
      if List.lookup p.1 acc2 = none then acc2 ++ [p] else acc2)
    acc

/-- The dict `all_elements` as accumulated by the CLI `main`. -/
def main_all_elements (views : List ViewRec) : List (String × ElemRec) :=
  views.foldl mergeCLIStep []

/-- The elements a single view contributes under the GUI keep test, in
view order. -/
def keptInView (v : ViewRec) : List (String × ElemRec) :=
  v.elements.filter (keepElem v)

/-- First-seen-wins insertion, the common core of both merges. -/
def dedupStep (acc : List (String × ElemRec)) (p : String × ElemRec) :
    List (String × ElemRec) :=
  if List.lookup p.1 acc = none then acc ++ [p] else acc

theorem foldl_guard_filter {α β : Type} (C : α → Bool) (f : β → α → β) (l : List α) (acc : β) :
    l.foldl (fun b a => if C a then f b a else b) acc = (l.filter C).foldl f acc := by
  induction l generalizing acc with
  | nil => rfl
  | cons a rest ih =>
    by_cases h : C a = true
    · simp [List.filter_cons, h, ih]
    · have h' : C a = false := by
        cases hca : C a
        · rfl
        · exact absurd hca h
      simp [List.filter_cons, h', ih]

theorem mergeAppStep_eq (acc : List (String × ElemRec)) (v : ViewRec) :
    mergeAppStep acc v = (keptInView v).foldl dedupStep acc :=
  foldl_guard_filter (keepElem v) dedupStep v.elements acc

theorem foldl_merge_flatMap (views : List ViewRec) (acc : List (String × ElemRec)) :
    views.foldl mergeAppStep acc = (views.flatMap keptInView).foldl dedupStep acc := by
  induction views generalizing acc with
  | nil => rfl
  | cons v rest ih =>
    simp only [List.foldl_cons, List.flatMap_cons, List.foldl_append]
    rw [mergeAppStep_eq, ih]

theorem lookup_foldl_dedupStep (l acc : List (String × ElemRec)) (id : String) :
    List.lookup id (l.foldl dedupStep acc)
      = myOr (List.lookup id acc) (List.lookup id l) := by
  induction l generalizing acc with
  | nil => simp [myOr_none]
  | cons p rest ih =>
    obtain ⟨k, v⟩ := p
    simp only [List.foldl_cons]
    by_cases h : id = k
    · subst h
      cases hacc : List.lookup id acc with
      | none =>
        have hstep : dedupStep acc (id, v) = acc ++ [(id, v)] := by
          simp [dedupStep, hacc]
        rw [hstep, ih, lookup_append, lookup_cons_key_eq id id v rest rfl, hacc,
          lookup_cons_key_eq id id v [] rfl]
        rfl
      | some w =>
        have hstep : dedupStep acc (id, v) = acc := by
          simp [dedupStep, hacc]
        rw [hstep, ih, hacc, lookup_cons_key_eq id id v rest rfl]
        rfl
    · cases hacc : List.lookup k acc with
      | none =>
        have hstep : dedupStep acc (k, v) = acc ++ [(k, v)] := by
          simp [dedupStep, hacc]
        rw [hstep, ih, lookup_append, lookup_cons_key_ne id k v rest h,
          lookup_cons_key_ne id k v [] h, List.lookup_nil, myOr_none]
      | some w =>
        have hstep : dedupStep acc (k, v) = acc := by
          simp [dedupStep, hacc]
        rw [hstep, ih, lookup_cons_key_ne id k v rest h]

theorem mem_foldl_dedupStep (l acc : List (String × ElemRec)) (p : String × ElemRec)
    (h : p ∈ l.foldl dedupStep acc) : p ∈ acc ∨ p ∈ l := by
  induction l generalizing acc with
  | nil => exact Or.inl h
  | cons q rest ih =>
    simp only [List.foldl_cons] at h
    rcases ih _ h with h1 | h2
    · unfold dedupStep at h1
      by_cases hc : List.lookup q.1 acc = none
      · rw [if_pos hc] at h1
        rcases List.mem_append.mp h1 with ha | hb
        · exact Or.inl ha
        · simp only [List.mem_singleton] at hb
          subst hb
          exact Or.inr (List.mem_cons_self _ _)
      · rw [if_neg hc] at h1
        exact Or.inl h1
    · exact Or.inr (List.mem_cons_of_mem _ h2)

/-- C2 (amended): for the GUI merge, the merged element dict holds, for
each identifier, the fields of the first batch-order occurrence among
elements that are in their view's coordinate set and not of an excluded
pseudo-type, later occurrences being ignored; every merged element has a
non-excluded type and appears in some view's coordinate set. -/
theorem c2_merged_elements_first_seen_kept (views : List ViewRec) :
    (∀ id : String,
      List.lookup id (create_merged_elements views)
        = List.lookup id (views.flatMap keptInView)) ∧
    (∀ p : String × ElemRec, p ∈ create_merged_elements views →
      ¬ p.2.etype ∈ excludedTypes) ∧
    (∀ p : String × ElemRec, p ∈ create_merged_elements views →
      ∃ v ∈ views, (List.lookup p.1 v.coordinates).isSome = true) := by
  have hrep : create_merged_elements views = (views.flatMap keptInView).foldl dedupStep [] :=
    foldl_merge_flatMap views []
  have hmem : ∀ p : String × ElemRec, p ∈ create_merged_elements views →
      ∃ v ∈ views, keepElem v p = true := by
    intro p hp
    rw [hrep] at hp
    rcases mem_foldl_dedupStep _ _ _ hp with h | h
    · simp at h
    · rcases List.mem_flatMap.mp h with ⟨v, hv, hpv⟩
      exact ⟨v, hv, (List.mem_filter.mp hpv).2⟩
  refine ⟨?_, ?_, ?_⟩
  · intro id
    rw [hrep, lookup_foldl_dedupStep, List.lookup_nil]
    rfl
  · intro p hp
    rcases hmem p hp with ⟨v, _, hk⟩
    have := (Bool.and_eq_true _ _).mp hk
    exact of_decide_eq_true this.2
  · intro p hp
    rcases hmem p hp with ⟨v, hv, hk⟩
    exact ⟨v, hv, ((Bool.and_eq_true _ _).mp hk).1⟩

/-- The box used in the C2 counterexample view. -/
def boxCX : CoordBox := { x := 0, y := 0, w := 10, h := 10, x2 := 10, y2 := 10 }

/-- Counterexample view for C2: three elements in the elements table, only
`id-a1` present in the coordinate map, and `id-u1` of pseudo-type
`Unknown`. -/
def viewCX : ViewRec :=
  { view_name := "V"
    view_id := "id-v1"
    elements :=
      [("id-a1", { id := "id-a1", name := "A", etype := "Capability" }),
       ("id-b1", { id := "id-b1", name := "B", etype := "Capability" }),
       ("id-u1", { id := "id-u1", name := "U", etype := "Unknown" })]
    relationships := []
    coordinates := [("id-a1", boxCX)] }

/-- Counterexample for C2 as stated: the CLI accumulator
(`main`, html_to_archimate_xml.py lines 826-829) merges `id-b1`, which is
in no view's coordinate set, and `id-u1`, whose type is the excluded
pseudo-type `Unknown`. -/
theorem c2_merged_elements_counterexample :
    List.lookup "id-b1" (main_all_elements [viewCX])
        = some { id := "id-b1", name := "B", etype := "Capability" } ∧
    List.lookup "id-b1" viewCX.coordinates = none ∧
    List.lookup "id-u1" (main_all_elements [viewCX])
        = some { id := "id-u1", name := "U", etype := "Unknown" } := by
  decide

/-- Witness for C2: the amended theorem applied to the concrete batch
`[viewCX]` and the concrete merged element `id-a1`. -/
theorem c2_merged_elements_first_seen_kept_witness :
    List.lookup "id-a1" (create_merged_elements [viewCX])
        = List.lookup "id-a1" ([viewCX].flatMap keptInView) ∧
    ¬ ("id-a1", ElemRec.mk "id-a1" "A" "Capability").2.etype ∈ excludedTypes ∧
    ∃ v ∈ [viewCX], (List.lookup "id-a1" v.coordinates).isSome = true :=
  ⟨(c2_merged_elements_first_seen_kept [viewCX]).1 "id-a1",
   (c2_merged_elements_first_seen_kept [viewCX]).2.1
     ("id-a1", ElemRec.mk "id-a1" "A" "Capability") (by decide),
   (c2_merged_elements_first_seen_kept [viewCX]).2.2
     ("id-a1", ElemRec.mk "id-a1" "A" "Capability") (by decide)⟩

/-! ## Diagram node emission and z-order (C4) -/

/-- One flat node queued for emission in a diagram
(`nodes_to_add` entries of `create_merged_xml`). -/
structure DiagNode where
  elem_id : String
  coords : CoordBox
  area : Int
deriving DecidableEq

/-- The node-collection loop of one view's diagram
(html_to_archimate_xml.py lines 721-737): an element contributes one node
when it is in the view's coordinate dict and not of an excluded
pseudo-type; `area = w * h`. -/
def nodes_to_add (v : ViewRec) : List DiagNode :=
  v.elements.foldl
    (fun acc p =>
      match List.lookup p.1 v.coordinates with
      | none => acc
      | some coords =>
        if decide (¬ p.2.etype ∈ excludedTypes) then
          acc ++ [{ elem_id := p.1, coords := coords, area := coords.w * coords.h }]
        else acc)
    []

/-- Descending-area comparison used by
`nodes_to_add.sort(key=lambda n: n['area'], reverse=True)`. -/
def zOrderGE (a b : DiagNode) : Prop := b.area ≤ a.area

instance : DecidableRel zOrderGE := fun a b => Int.decLe b.area a.area

instance : IsTotal DiagNode zOrderGE := ⟨fun a b => le_total b.area a.area⟩

instance : IsTrans DiagNode zOrderGE := ⟨fun _ _ _ h1 h2 => le_trans h2 h1⟩

/-- The node sequence of one emitted diagram: the collected nodes stably
sorted by descending area (Python `list.sort` is stable; a stable sort's
output is unique, so insertion sort models it exactly). -/
def sortedNodes (v : ViewRec) : List DiagNode :=
  (nodes_to_add v).insertionSort zOrderGE

/-- C4: within one emitted diagram, a node with strictly greater
bounding-box area appears strictly earlier in the node sequence. -/
theorem c4_zorder_descending_area (v : ViewRec) :
    ∀ i j : Fin (sortedNodes v).length,
      ((sortedNodes v).get j).area < ((sortedNodes v).get i).area → i < j := by
  intro i j hlt
  have hs : List.Sorted zOrderGE (sortedNodes v) :=
    List.sorted_insertionSort zOrderGE (nodes_to_add v)
  have hp := (List.pairwise_iff_get).mp hs
  by_contra hij
  rcases lt_or_eq_of_le (not_lt.mp hij) with hji | hji
  · have := hp j i hji
    exact absurd hlt (not_lt.mpr this)
  · rw [hji] at hlt
    exact lt_irrefl _ hlt

/-! ## The Reference Resolver reachability test (C3)

`folder_has_valid_content` (html_to_archimate_xml.py lines 630-647) is a
recursive Python function whose `visited` set is freshly constructed per
top-level call and mutated in place across the whole call tree; recursion
happens over the interpreter call stack.  The embedding threads `visited`
explicitly and models the call stack by a fuel parameter: `none` means
"the recursion would still be running after `fuel` nested calls".  The
totality theorem shows an explicit fuel bound after which the result
exists and no longer depends on the fuel — i.e. the Python recursion
terminates with a deterministic Boolean even on cyclic edges. -/

/-- One record of `dataFoldersContent`:
`(folder_id, content_id, content_type)`. -/
structure CEdge where
  folderId : String
  contentId : String
  contentType : String
deriving DecidableEq

/-- Model of `folder_children.get(folder_id, [])`: the `(content_id, content_type)`
pairs of a folder's content edges, in registry order. -/
def childrenOf (edges : List CEdge) (fid : String) : List (String × String) :=
  (edges.filter (fun e => e.folderId == fid)).map (fun e => (e.contentId, e.contentType))

/-- The `for content_id, content_type in children` loop body of
`folder_has_valid_content`, abstracted over the recursive call `rec`
(which carries the remaining fuel): short-circuit `true` on a valid id,
recurse into folder-like children threading the visited set, propagate
fuel exhaustion. -/
def fhvcKidsF (folders valid : List String)
    (rec : String → List String → Option (Bool × List String)) :
    List (String × String) → List String → Option (Bool × List String)
  | [], visited => some (false, visited)
  | (cid, ctype) :: rest, visited =>
    if cid ∈ valid then some (true, visited)
    else if ctype = "Folder" ∨ cid ∈ folders then
      match rec cid visited with
      | none => none
      | some (true, vis) => some (true, vis)
      | some (false, vis) => fhvcKidsF folders valid rec rest vis
    else fhvcKidsF folders valid rec rest visited

/-- Model of `folder_has_valid_content(folder_id, visited)` with fuel standing for
the Python call stack: an already-visited folder yields `False`
immediately; otherwise the folder is added to `visited` and its children
are scanned. -/
def folder_has_valid_content (edges : List CEdge) (folders valid : List String) :
    Nat → String → List String → Option (Bool × List String)
  | 0, _, _ => none
  | fuel + 1, fid, visited =>
    if fid ∈ visited then some (false, visited)
    else
      fhvcKidsF folders valid (folder_has_valid_content edges folders valid fuel)
        (childrenOf edges fid) (fid :: visited)

/-- All content identifiers appearing in the edge list: the only folder
ids the recursion can ever add to `visited` below the root. -/
def contentIds (edges : List CEdge) : List String :=
  edges.map (fun e => e.contentId)

/-- The number of content identifiers not yet visited: the quantity that
shrinks at every non-short-circuited recursive call. -/
def missingCount (edges : List CEdge) (visited : List String) : Nat :=
  ((contentIds edges).toFinset \ visited.toFinset).card

theorem missingCount_mono (edges : List CEdge) {w w' : List String}
    (h : ∀ x, x ∈ w → x ∈ w') : missingCount edges w' ≤ missingCount edges w := by
  apply Finset.card_le_card
  apply Finset.sdiff_subset_sdiff (Finset.Subset.refl _)
  intro x hx
  exact List.mem_toFinset.mpr (h x (List.mem_toFinset.mp hx))

theorem missingCount_cons_lt (edges : List CEdge) {w : List String} {x : String}
    (hx : x ∈ contentIds edges) (hxw : ¬ x ∈ w) :
    missingCount edges (x :: w) < missingCount edges w := by
  apply Finset.card_lt_card
  rw [Finset.ssubset_iff_of_subset]
  · refine ⟨x, ?_, ?_⟩
    · rw [Finset.mem_sdiff]
      exact ⟨List.mem_toFinset.mpr hx, fun hc => hxw (List.mem_toFinset.mp hc)⟩
    · rw [Finset.mem_sdiff, List.toFinset_cons]
      rintro ⟨_, habs⟩
      exact habs (Finset.mem_insert_self x _)
  · apply Finset.sdiff_subset_sdiff (Finset.Subset.refl _)
    intro y hy
    rw [List.toFinset_cons]
    exact Finset.mem_insert_of_mem hy

theorem childrenOf_sub_contentIds (edges : List CEdge) (fid : String) :
    ∀ p ∈ childrenOf edges fid, p.1 ∈ contentIds edges := by
  intro p hp
  unfold childrenOf at hp
  rcases List.mem_map.mp hp with ⟨e, he, hpe⟩
  have he' : e ∈ edges := List.mem_of_mem_filter he
  rw [← hpe]
  exact List.mem_map.mpr ⟨e, he', rfl⟩

/-- Fuel sufficiency condition for one call of the reachability test. -/
def fhvcCond (edges : List CEdge) (n : Nat) (fid : String) (w : List String) : Prop :=
  (fid ∈ w ∧ 1 ≤ n) ∨
  (fid ∈ contentIds edges ∧ missingCount edges w + 1 ≤ n) ∨
  (missingCount edges w + 2 ≤ n)

/-- With enough fuel the reachability test returns a result and only ever
grows the visited set. -/
theorem fhvc_total (edges : List CEdge) (folders valid : List String) :
    ∀ n : Nat,
      (∀ fid w, fhvcCond edges n fid w →
        ∃ b w', folder_has_valid_content edges folders valid n fid w = some (b, w') ∧
          ∀ x, x ∈ w → x ∈ w') ∧
      (∀ cs w, (∀ p ∈ cs, p.1 ∈ contentIds edges) → missingCount edges w + 1 ≤ n →
        ∃ b w',
          fhvcKidsF folders valid (folder_has_valid_content edges folders valid n) cs w
            = some (b, w') ∧
          ∀ x, x ∈ w → x ∈ w') := by
  intro n
  induction n with
  | zero =>
    constructor
    · intro fid w hc
      rcases hc with ⟨_, h⟩ | ⟨_, h⟩ | h <;> omega
    · intro cs w _ h
      omega
  | succ n ih =>
    have hA : ∀ fid w, fhvcCond edges (n + 1) fid w →
        ∃ b w', folder_has_valid_content edges folders valid (n + 1) fid w = some (b, w') ∧
          ∀ x, x ∈ w → x ∈ w' := by
      intro fid w hc
      by_cases hv : fid ∈ w
      · refine ⟨false, w, ?_, fun x hx => hx⟩
        simp [folder_has_valid_content, hv]
      · have hkids : missingCount edges (fid :: w) + 1 ≤ n := by
          rcases hc with ⟨hmem, _⟩ | ⟨hcid, hn⟩ | hn
          · exact absurd hmem hv
          · have := missingCount_cons_lt edges hcid hv
            omega
          · have : missingCount edges (fid :: w) ≤ missingCount edges w :=
              missingCount_mono edges (fun x hx => List.mem_cons_of_mem _ hx)
            omega
        rcases ih.2 (childrenOf edges fid) (fid :: w)
            (childrenOf_sub_contentIds edges fid) hkids with ⟨b, w', hw', hsub⟩
        refine ⟨b, w', ?_, fun x hx => hsub x (List.mem_cons_of_mem _ hx)⟩
        simp [folder_has_valid_content, hv, hw']
    refine ⟨hA, ?_⟩
    intro cs
    induction cs with
    | nil =>
      intro w _ _
      exact ⟨false, w, rfl, fun x hx => hx⟩
    | cons p rest ihcs =>
      intro w hsub hm
      obtain ⟨cid, ctype⟩ := p
      by_cases hvld : cid ∈ valid
      · refine ⟨true, w, ?_, fun x hx => hx⟩
        simp [fhvcKidsF, hvld]
      · by_cases hfold : ctype = "Folder" ∨ cid ∈ folders
        · have hcond : fhvcCond edges (n + 1) cid w := by
            by_cases hcw : cid ∈ w
            · exact Or.inl ⟨hcw, by omega⟩
            · exact Or.inr (Or.inl ⟨hsub (cid, ctype) (List.mem_cons_self _ _), hm⟩)
          rcases hA cid w hcond with ⟨b, w', hb, hsubw⟩
          cases b with
          | true =>
            refine ⟨true, w', ?_, hsubw⟩
            simp [fhvcKidsF, hvld, hfold, hb]
          | false =>
            have hm' : missingCount edges w' + 1 ≤ n + 1 := by
              have := missingCount_mono edges hsubw
              omega
            rcases ihcs w' (fun q hq => hsub q (List.mem_cons_of_mem _ hq)) hm'
              with ⟨b2, w2, hb2, hsub2⟩
            refine ⟨b2, w2, ?_, fun x hx => hsub2 x (hsubw x hx)⟩
            simp [fhvcKidsF, hvld, hfold, hb, hb2]
        · rcases ihcs w (fun q hq => hsub q (List.mem_cons_of_mem _ hq)) hm
            with ⟨b2, w2, hb2, hsub2⟩
          refine ⟨b2, w2, ?_, hsub2⟩
          simp [fhvcKidsF, hvld, hfold, hb2]

/-- Adding fuel never changes an already-computed reachability result. -/
theorem fhvc_mono (edges : List CEdge) (folders valid : List String) :
    ∀ n : Nat,
      (∀ fid w r, folder_has_valid_content edges folders valid n fid w = some r →
        folder_has_valid_content edges folders valid (n + 1) fid w = some r) ∧
      (∀ cs w r,
        fhvcKidsF folders valid (folder_has_valid_content edges folders valid n) cs w
          = some r →
        fhvcKidsF folders valid (folder_has_valid_content edges folders valid (n + 1)) cs w
          = some r) := by
  intro n
  induction n with
  | zero =>
    have hA : ∀ fid w r, folder_has_valid_content edges folders valid 0 fid w = some r →
        folder_has_valid_content edges folders valid 1 fid w = some r := by
      intro fid w r h
      simp [folder_has_valid_content] at h
    refine ⟨hA, ?_⟩
    intro cs
    induction cs with
    | nil => intro w r h; exact h
    | cons p rest ihcs =>
      intro w r h
      obtain ⟨cid, ctype⟩ := p
      by_cases hvld : cid ∈ valid
      · simpa [fhvcKidsF, hvld] using h
      · by_cases hfold : ctype = "Folder" ∨ cid ∈ folders
        · simp only [fhvcKidsF] at h
          rw [if_neg hvld, if_pos hfold] at h
          cases hrec : folder_has_valid_content edges folders valid 0 cid w with
          | none => rw [hrec] at h; exact absurd h (by simp)
          | some v => simp [folder_has_valid_content] at hrec
        · simp only [fhvcKidsF] at h ⊢
          rw [if_neg hvld, if_neg hfold] at h ⊢
          exact ihcs w r h
  | succ n ih =>
    have hA : ∀ fid w r,
        folder_has_valid_content edges folders valid (n + 1) fid w = some r →
        folder_has_valid_content edges folders valid (n + 2) fid w = some r := by
      intro fid w r h
      by_cases hv : fid ∈ w
      · simpa [folder_has_valid_content, hv] using h
      · simp only [folder_has_valid_content] at h ⊢
        rw [if_neg hv] at h ⊢
        exact ih.2 (childrenOf edges fid) (fid :: w) r h
    refine ⟨hA, ?_⟩
    intro cs
    induction cs with
    | nil => intro w r h; exact h
    | cons p rest ihcs =>
      intro w r h
      obtain ⟨cid, ctype⟩ := p
      by_cases hvld : cid ∈ valid
      · simpa [fhvcKidsF, hvld] using h
      · by_cases hfold : ctype = "Folder" ∨ cid ∈ folders
        · simp only [fhvcKidsF] at h ⊢
          rw [if_neg hvld, if_pos hfold] at h ⊢
          cases hrec : folder_has_valid_content edges folders valid (n + 1) cid w with
          | none => rw [hrec] at h; exact absurd h (by simp)
          | some v =>
            rw [hrec] at h
            rw [hA cid w v hrec]
            obtain ⟨b, vis⟩ := v
            cases b with
            | true => exact h
            | false => exact ihcs vis r h
        · simp only [fhvcKidsF] at h ⊢
          rw [if_neg hvld, if_neg hfold] at h ⊢
          exact ihcs w r h

theorem fhvc_fuel_stable (edges : List CEdge) (folders valid : List String)
    (fid : String) (w : List String) (r : Bool × List String) :
    ∀ n m : Nat, n ≤ m →
      folder_has_valid_content edges folders valid n fid w = some r →
      folder_has_valid_content edges folders valid m fid w = some r := by
  intro n m hnm h
  induction m with
  | zero =>
    have : n = 0 := Nat.le_zero.mp hnm
    rw [← this]
    exact h
  | succ m ihm =>
    rcases Nat.lt_or_ge n (m + 1) with hlt | hge
    · have hnm' : n ≤ m := Nat.lt_succ_iff.mp hlt
      exact (fhvc_mono edges folders valid m).1 fid w r (ihm hnm')
    · have : n = m + 1 := Nat.le_antisymm hnm hge
      rw [← this]
      exact h

/-- C3: for every edge list (cyclic or not), folder list and valid-id set,
the per-folder reachability test called with a fresh visited set
terminates — with fuel `edges.length + 2` it returns a result — and the
result is deterministic: any larger fuel gives the same answer. -/
theorem c3_reachability_terminates_deterministic
    (edges : List CEdge) (folders valid : List String) (fid : String) :
    (folder_has_valid_content edges folders valid (edges.length + 2) fid []).isSome = true ∧
    (∀ n, edges.length + 2 ≤ n →
      folder_has_valid_content edges folders valid n fid []
        = folder_has_valid_content edges folders valid (edges.length + 2) fid []) := by
  have hmiss : missingCount edges ([] : List String) ≤ edges.length := by
    unfold missingCount
    rw [List.toFinset_nil, Finset.sdiff_empty]
    calc (contentIds edges).toFinset.card
        ≤ (contentIds edges).length := List.toFinset_card_le _
      _ = edges.length := List.length_map _ _
  have hcond : fhvcCond edges (edges.length + 2) fid [] := by
    right; right
    omega
  rcases (fhvc_total edges folders valid (edges.length + 2)).1 fid [] hcond
    with ⟨b, w', hw', _⟩
  constructor
  · rw [hw']
    rfl
  · intro n hn
    rw [hw']
    exact fhvc_fuel_stable edges folders valid fid [] (b, w') (edges.length + 2) n hn hw'

/-- The cyclic content-edge graph F1 → F2 → F1 of the spec scenario. -/
def cycleEdges : List CEdge :=
  [{ folderId := "F1", contentId := "F2", contentType := "Folder" },
   { folderId := "F2", contentId := "F1", contentType := "Folder" }]

/-- Witness for C3: on the concrete cycle the test yields a finite
deterministic result (`false`, having visited both folders) and extra
fuel does not change it. -/
theorem c3_reachability_terminates_deterministic_witness :
    folder_has_valid_content cycleEdges ["F1", "F2"] [] (cycleEdges.length + 2) "F1" []
        = some (false, ["F2", "F1"]) ∧
    folder_has_valid_content cycleEdges ["F1", "F2"] [] 10 "F1" []
        = folder_has_valid_content cycleEdges ["F1", "F2"] [] (cycleEdges.length + 2) "F1" [] :=
  ⟨by decide,
   (c3_reachability_terminates_deterministic cycleEdges ["F1", "F2"] [] "F1").2 10
     (by decide)⟩

/-! ## Organizations emission and referential integrity (C1) -/

/-- One record of `dataFolders`: id, type tag, display name. -/
structure FolderRec where
  id : String
  ftype : String
  name : String
deriving DecidableEq

/-- The valid-id set built by `create_merged_xml`
(html_to_archimate_xml.py lines 606-617): ids of elements that will
actually be written (excluded pseudo-types skipped), all relationship
ids, and the truthy view ids of the processed views. -/
def merged_valid_ids (all_elements : List (String × ElemRec))
    (all_relationships : List (String × RelRec)) (views : List ViewRec) : List String :=
  all_elements.filterMap (fun p => if p.2.etype ∈ excludedTypes then none else some p.1)
    ++ all_relationships.map (fun p => p.1)
    ++ views.filterMap (fun v => if v.view_id = "" then none else some v.view_id)

/-- Identifiers emitted in the elements section
(html_to_archimate_xml.py lines 569-585): one element per non-excluded
entry of `all_elements`. -/
def emitted_element_ids (all_elements : List (String × ElemRec)) : List String :=
  all_elements.filterMap (fun p => if p.2.etype ∈ excludedTypes then none else some p.1)

/-- Identifiers emitted in the relationships section (lines 588-598). -/
def emitted_relationship_ids (all_relationships : List (String × RelRec)) : List String :=
  all_relationships.map (fun p => p.1)

/-- Identifiers emitted in the views section (lines 711-714): the view's
own id when truthy, else a freshly generated one (`fresh`). -/
def emitted_view_ids (views : List ViewRec) (fresh : ViewRec → String) : List String :=
  views.map (fun v => if v.view_id = "" then fresh v else v.view_id)

/-- The `identifierRef` attributes emitted below one folder by
`add_folder_items` (html_to_archimate_xml.py lines 684-699), with fuel
bounding the recursion depth (the Python function recurses on the call
stack): nothing for an unknown or non-included folder; per child, recurse
into included sub-folders, else emit a leaf ref iff the child id is in
the valid-id set. -/
def add_folder_items_refs (folders : List (String × FolderRec)) (edges : List CEdge)
    (included valid : List String) : Nat → String → List String
  | 0, _ => []
  | fuel + 1, folder_id =>
    match List.lookup folder_id folders with
    | none => []
    | some _ =>
      if folder_id ∈ included then
        (childrenOf edges folder_id).flatMap (fun p =>
          if p.2 = "Folder" ∧ p.1 ∈ included then
            add_folder_items_refs folders edges included valid fuel p.1
          else if p.1 ∈ valid then [p.1]
          else [])
      else []

/-- All `identifierRef`s of the organizations section: the refs below each
root folder (lines 701-702). -/
def org_refs (folders : List (String × FolderRec)) (edges : List CEdge)
    (included valid roots : List String) (fuel : Nat) : List String :=
  roots.flatMap (add_folder_items_refs folders edges included valid fuel)

theorem add_folder_items_refs_sub_valid (folders : List (String × FolderRec))
    (edges : List CEdge) (included valid : List String) :
    ∀ (fuel : Nat) (fid r : String),
      r ∈ add_folder_items_refs folders edges included valid fuel fid → r ∈ valid := by
  intro fuel
  induction fuel with
  | zero => intro fid r h; simp [add_folder_items_refs] at h
  | succ fuel ih =>
    intro fid r h
    unfold add_folder_items_refs at h
    cases hf : List.lookup fid folders with
    | none => rw [hf] at h; simp at h
    | some folder =>
      rw [hf] at h
      by_cases hinc : fid ∈ included
      · rw [if_pos hinc] at h
        rcases List.mem_flatMap.mp h with ⟨p, _, hp⟩
        by_cases h1 : p.2 = "Folder" ∧ p.1 ∈ included
        · rw [if_pos h1] at hp
          exact ih p.1 r hp
        · rw [if_neg h1] at hp
          by_cases h2 : p.1 ∈ valid
          · rw [if_pos h2] at hp
            simp only [List.mem_singleton] at hp
            rw [hp]
            exact h2
          · rw [if_neg h2] at hp
            simp at hp
      · rw [if_neg hinc] at h
        simp at h

/-- C1: every identifier referenced from the synthesized organizations
tree (any fuel, any included-folder set, any root list) is emitted in the
elements, relationships, or views section of the document. -/
theorem c1_organizations_referential_integrity
    (all_elements : List (String × ElemRec)) (all_relationships : List (String × RelRec))
    (views : List ViewRec) (folders : List (String × FolderRec)) (edges : List CEdge)
    (included roots : List String) (fuel : Nat) (fresh : ViewRec → String) :
    ∀ r ∈ org_refs folders edges included
        (merged_valid_ids all_elements all_relationships views) roots fuel,
      r ∈ emitted_element_ids all_elements ∨
      r ∈ emitted_relationship_ids all_relationships ∨
      r ∈ emitted_view_ids views fresh := by
  intro r hr
  rcases List.mem_flatMap.mp hr with ⟨root, _, href⟩
  have hvalid : r ∈ merged_valid_ids all_elements all_relationships views :=
    add_folder_items_refs_sub_valid folders edges included _ fuel root r href
  unfold merged_valid_ids at hvalid
  rcases List.mem_append.mp hvalid with h12 | h3
  · rcases List.mem_append.mp h12 with h1 | h2
    · exact Or.inl h1
    · exact Or.inr (Or.inl h2)
  · right; right
    rcases List.mem_filterMap.mp h3 with ⟨v, hv, hvid⟩
    by_cases hid : v.view_id = ""
    · rw [if_pos hid] at hvid
      exact absurd hvid (by simp)
    · rw [if_neg hid] at hvid
      simp only [Option.some.injEq] at hvid
      subst hvid
      unfold emitted_view_ids
      exact List.mem_map.mpr ⟨v, hv, by rw [if_neg hid]⟩

/-- Concrete model pieces for the C1 witness: folder `F` contains element
`id-a1` and a stray reference `id-zz` that is not valid. -/
def foldersW : List (String × FolderRec) :=
  [("F", { id := "F", ftype := "Folder", name := "Folder F" })]

/-- Content edges for the C1 witness. -/
def edgesW : List CEdge :=
  [{ folderId := "F", contentId := "id-a1", contentType := "Element" },
   { folderId := "F", contentId := "id-zz", contentType := "Element" }]

/-- Elements dict for the C1 witness. -/
def elementsW : List (String × ElemRec) :=
  [("id-a1", { id := "id-a1", name := "A", etype := "Capability" })]

/-- Witness for C1: in the concrete model the organizations section emits
exactly one ref, `id-a1`, and it is emitted in the elements section. -/
theorem c1_organizations_referential_integrity_witness :
    org_refs foldersW edgesW ["F"]
        (merged_valid_ids elementsW [] [viewRecDemo]) ["F"] 2 = ["id-a1"] ∧
    ("id-a1" ∈ emitted_element_ids elementsW ∨
      "id-a1" ∈ emitted_relationship_ids [] ∨
      "id-a1" ∈ emitted_view_ids [viewRecDemo] (fun _ => "id-f9")) :=
  ⟨by decide,
   c1_organizations_referential_integrity elementsW [] [viewRecDemo] foldersW edgesW
     ["F"] ["F"] 2 (fun _ => "id-f9") "id-a1" (by decide)⟩

/-! ## Root-folder selection (C9) -/

/-- Model of `get_parent_folder` (html_to_archimate_xml.py lines 656-660): the
folder id of the first content edge of content-type `Folder` whose
content id is the given folder. -/
def get_parent_folder (edges : List CEdge) (folder_id : String) : Option String :=
  (edges.find? (fun fc => fc.contentId == folder_id && fc.contentType == "Folder")).map
    (fun fc => fc.folderId)

/-- The root-folder selection loop (html_to_archimate_xml.py lines
673-679): an included folder is a root iff it is a known folder whose own
type is `"Folder"` and it has no parent edge or its parent folder's type
is `"ArchimateModel"`. -/
def root_folder_ids (folders : List (String × FolderRec)) (edges : List CEdge)
    (included : List String) : List String :=
  included.filter (fun folder_id =>
    match List.lookup folder_id folders with
    | none => false
    | some folder =>
      folder.ftype == "Folder" &&
        (match get_parent_folder edges folder_id with
         | none => true
         | some parent =>
           match List.lookup parent folders with
           | none => false
           | some pf => pf.ftype == "ArchimateModel"))

/-- Counterexample for C9 as stated: the included, parentless folder `F`
of type `"X"` satisfies the claim's root condition (no parent
content-edge of type Folder) yet is not selected as a top-level root,
because the code additionally requires the folder's own type to be
`"Folder"`. -/
theorem c9_root_selection_counterexample :
    "F" ∈ ["F"] ∧
    get_parent_folder [] "F" = none ∧
    ¬ "F" ∈ root_folder_ids [("F", { id := "F", ftype := "X", name := "n" })] [] ["F"] := by
  decide

/-- C9 (amended): an included folder is emitted as a top-level root iff
its registry record exists with own type `"Folder"` and it has no parent
content-edge of content-type Folder or its parent folder's type is the
root sentinel `"ArchimateModel"`; hence the root-sentinel folder itself is
never a top-level root. -/
theorem c9_root_selection_amended (folders : List (String × FolderRec))
    (edges : List CEdge) (included : List String) (f : String) :
    (f ∈ root_folder_ids folders edges included ↔
      f ∈ included ∧
      (∃ folder, List.lookup f folders = some folder ∧ folder.ftype = "Folder") ∧
      (get_parent_folder edges f = none ∨
        ∃ p pf, get_parent_folder edges f = some p ∧
          List.lookup p folders = some pf ∧ pf.ftype = "ArchimateModel")) ∧
    (∀ folder, List.lookup f folders = some folder → folder.ftype = "ArchimateModel" →
      ¬ f ∈ root_folder_ids folders edges included) := by
  constructor
  · rw [root_folder_ids, List.mem_filter]
    constructor
    · rintro ⟨hin, hpred⟩
      refine ⟨hin, ?_⟩
      cases hf : List.lookup f folders with
      | none => rw [hf] at hpred; simp at hpred
      | some folder =>
        rw [hf] at hpred
        rcases Bool.and_eq_true _ _ |>.mp hpred with ⟨hty, hpar⟩
        refine ⟨⟨folder, rfl, by simpa using hty⟩, ?_⟩
        cases hp : get_parent_folder edges f with
        | none => exact Or.inl rfl
        | some parent =>
          rw [hp] at hpar
          have hpar2 : (match List.lookup parent folders with
              | none => false
              | some pf => pf.ftype == "ArchimateModel") = true := hpar
          cases hpf : List.lookup parent folders with
          | none => rw [hpf] at hpar2; simp at hpar2
          | some pf =>
            rw [hpf] at hpar2
            exact Or.inr ⟨parent, pf, rfl, hpf, by simpa using hpar2⟩
    · rintro ⟨hin, ⟨folder, hf, hty⟩, hpar⟩
      refine ⟨hin, ?_⟩
      rw [hf]
      apply (Bool.and_eq_true _ _).mpr
      refine ⟨by simp [hty], ?_⟩
      rcases hpar with hnone | ⟨p, pf, hp, hpf, hpty⟩
      · rw [hnone]
      · rw [hp]
        show (match List.lookup p folders with
            | none => false
            | some pf => pf.ftype == "ArchimateModel") = true
        rw [hpf]
        simp [hpty]
  · intro folder hf hty hmem
    rw [root_folder_ids, List.mem_filter] at hmem
    rcases hmem with ⟨_, hpred⟩
    rw [hf] at hpred
    rcases Bool.and_eq_true _ _ |>.mp hpred with ⟨hty', _⟩
    have : folder.ftype = "Folder" := by simpa using hty'
    rw [hty] at this
    exact absurd this (by decide)

/-- Folder table for the C9 witness: sentinel root `R` and ordinary
folder `G` contained in `R`. -/
def foldersW9 : List (String × FolderRec) :=
  [("R", { id := "R", ftype := "ArchimateModel", name := "model" }),
   ("G", { id := "G", ftype := "Folder", name := "g" })]

/-- Content edges for the C9 witness. -/
def edgesW9 : List CEdge :=
  [{ folderId := "R", contentId := "G", contentType := "Folder" }]

/-- Witness for C9: `G` (type Folder, parent is the sentinel) is a root;
the sentinel `R` itself is not. -/
theorem c9_root_selection_amended_witness :
    "G" ∈ root_folder_ids foldersW9 edgesW9 ["G", "R"] ∧
    ¬ "R" ∈ root_folder_ids foldersW9 edgesW9 ["G", "R"] :=
  ⟨(c9_root_selection_amended foldersW9 edgesW9 ["G", "R"] "G").1.mpr
      ⟨by decide, ⟨FolderRec.mk "G" "Folder" "g", by decide, rfl⟩,
        Or.inr ⟨"R", FolderRec.mk "R" "ArchimateModel" "model", by decide, by decide, rfl⟩⟩,
   (c9_root_selection_amended foldersW9 edgesW9 ["G", "R"] "R").2
     (FolderRec.mk "R" "ArchimateModel" "model") (by decide) rfl⟩

/-- The concrete two-node view for the C4 witness: element `id-s1` has a
10 by 10 box, element `id-t1` a 30 by 20 box. -/
def viewZ : ViewRec :=
  { view_name := "Z"
    view_id := "id-vz"
    elements :=
      [("id-s1", { id := "id-s1", name := "S", etype := "Capability" }),
       ("id-t1", { id := "id-t1", name := "T", etype := "Capability" })]
    relationships := []
    coordinates :=
      [("id-s1", { x := 0, y := 0, w := 10, h := 10, x2 := 10, y2 := 10 }),
       ("id-t1", { x := 0, y := 0, w := 30, h := 20, x2 := 30, y2 := 20 })] }

/-- Witness for C4: in the concrete diagram the larger node sorts first. -/
theorem c4_zorder_descending_area_witness :
    ((sortedNodes viewZ).get ⟨1, by decide⟩).area
        < ((sortedNodes viewZ).get ⟨0, by decide⟩).area ∧
    (⟨0, by decide⟩ : Fin (sortedNodes viewZ).length) < ⟨1, by decide⟩ :=
  ⟨by decide,
   c4_zorder_descending_area viewZ ⟨0, by decide⟩ ⟨1, by decide⟩ (by decide)⟩
